import Mathlib

/-!
# WaveBlocks: shallow embedding and verification

This file embeds the core of the WaveBlocks repository in Lean 4 and proves
properties of the embedded code.  The embedded pieces are:

* `IOManager` (src/WaveBlocks/IOManager.py): block bookkeeping
  (`create_file`, `create_block`), the dataset resize check (`must_resize`)
  and the timegrid lookup (`find_timestep_index`).
* `InhomogeneousQuadrature` (src/WaveBlocks/InhomogeneousQuadrature.py):
  parameter mixing (`mix_parameters`), node transformation
  (`transform_nodes`), the scalar quadrature (`quadrature`) and the matrix
  quadrature (`build_matrix`).
* `SimulationLoopMultiHagedorn` (src/WaveBlocks/SimulationLoopMultiHagedorn.py):
  the constructor's storage creation and the configuration checks of
  `prepare_simulation`.

Modelling conventions: Python / numpy complex scalars become `ℂ`, real
scalars become `ℝ`; division by zero follows Lean's total-division
convention (the Python code produces IEEE non-finite junk at the same
inputs and raises no exception there, so totality of the embedding mirrors
the totality of the source).  `scipy.sqrt` (the scimath square root, which
returns a complex value on negative real input) is embedded as `scimathSqrt`.
Fallible code (a Python `raise`) is embedded in `Except` / `Option`;
external collaborators (the basis evaluator, the potential's component
count, the quadrature rule contents) are parameters of the embedding, as
the spec declares them external interfaces.
-/

namespace WaveBlocks

/-! ## IOManager: data file model

An HDF5 result file is modelled by the fields the embedded operations
touch: the `number_blocks` attribute, the list of `datablock_<i>` group
names (kept as the list of their numeric ids, in creation order), whether
the `simulation_parameters` group has been written, and the list of
dataset names created by the save plugins. -/

structure DataFile where
  number_blocks : ℕ
  blocks : List ℕ
  params_saved : Bool
  datasets : List String
  deriving Repr, DecidableEq

namespace IOManager

/-- `IOManager.create_block`: read the `number_blocks` attribute, create the
group `datablock_<number_blocks>`, then increment the attribute. -/
def create_block (f : DataFile) : DataFile :=
  { f with
    blocks := f.blocks ++ [f.number_blocks]
    number_blocks := f.number_blocks + 1 }

/-- `IOManager.save_simulation_parameters`: create the
`simulation_parameters` group and store the pickled parameters as
attributes. -/
def save_simulation_parameters (f : DataFile) : DataFile :=
  { f with params_saved := true }

/-- `IOManager.create_file` on a fresh target: open a new file, set the
`number_blocks` attribute to `0`, save the simulation parameters, and
create the first data block. -/
def create_file : DataFile :=
  create_block (save_simulation_parameters
    { number_blocks := 0, blocks := [], params_saved := false, datasets := [] })

/-- `IOManager.must_resize`, restricted to the extent along the addressed
axis: `cur_len = shape[axis]`; if `cur_len - 1 < slot` (over ℤ, as in
Python) the dataset is resized to `slot + 1` along that axis. -/
def must_resize_extent (cur_len slot : ℕ) : ℕ :=
  if (cur_len : ℤ) - 1 < (slot : ℤ) then slot + 1 else cur_len

/-- `IOManager.must_resize` acting on the full shape of a dataset: only the
extent along `axis` is touched. -/
def must_resize (shape : List ℕ) (slot axis : ℕ) : List ℕ :=
  shape.set axis (must_resize_extent (shape.getD axis 0) slot)

/-- `IOManager.find_timestep_index`: `np.where(timegrid[:] == timestep)`
collects the indices whose entry equals `timestep`; an empty result raises
`ValueError("No data for given timestep!")`. -/
def find_timestep_index (timegrid : List ℤ) (timestep : ℤ) :
    Except String (List ℕ) :=
  let index := (List.range timegrid.length).filter
    (fun i => timegrid.getD i 0 = timestep)
  if index.isEmpty then
    Except.error "No data for given timestep!"
  else
    Except.ok index

end IOManager

/-! ## InhomogeneousQuadrature -/

/-- A Hagedorn parameter set `Pi = (P, Q, S, p, q)` of one component. -/
abbrev ParamSet : Type := ℂ × ℂ × ℂ × ℂ × ℂ

/-- `scipy.sqrt` (the scimath square root) on a real argument: the usual
real square root for nonnegative input, and `i·sqrt(-x)` for negative
input (scipy returns a complex value there instead of `nan`). -/
noncomputable def scimathSqrt (x : ℝ) : ℂ :=
  if 0 ≤ x then (Real.sqrt x : ℂ) else Complex.I * (Real.sqrt (-x) : ℂ)

/-- A quadrature rule: `get_nodes()` and `get_weights()` indexed by node
number, and `get_number_nodes()`.  Immutable, as the spec requires. -/
structure QuadratureRule where
  nnodes : ℕ
  nodes : ℕ → ℝ
  weights : ℕ → ℂ

/-- A multi-component Hagedorn wavepacket, reduced to the accessors the
quadrature code consults: `get_number_components`, `get_basis_size`,
`eps`, `get_parameters(aslist=True)`, `get_coefficients`, and the external
basis-evaluator capability `evaluate_basis_at(nodes, component,
prefactor=True)`, whose value at basis index `i` and node index `k` is
`basis nodes component i k`. -/
structure Wavepacket where
  N : ℕ
  K : ℕ
  eps : ℝ
  Pi : ℕ → ParamSet
  coeffs : ℕ → ℕ → ℂ
  basis : List ℂ → ℕ → ℕ → ℕ → ℂ

namespace InhomogeneousQuadrature

/-- `InhomogeneousQuadrature.mix_parameters`:
```
(Pr, Qr, Sr, pr, qr) = Pibra ; (Pc, Qc, Sc, pc, qc) = Piket
rr = Pr/Qr ; rc = Pc/Qc
r  = conj(rr) - rc
s  = conj(rr)*qr - rc*qc
q0 = imag(s)/imag(r) ; Q0 = -0.5*imag(r) ; QS = 1/sqrt(Q0)
```
`imag` returns a real scalar, hence `q0 : ℝ`; `sqrt` is the scimath
square root, hence `QS : ℂ`.  The source performs no domain check and has
no error path. -/
noncomputable def mix_parameters (Pibra Piket : ParamSet) : ℝ × ℂ :=
  let Pr := Pibra.1; let Qr := Pibra.2.1; let qr := Pibra.2.2.2.2
  let Pc := Piket.1; let Qc := Piket.2.1; let qc := Piket.2.2.2.2
  let rr := Pr / Qr
  let rc := Pc / Qc
  let r := starRingEnd ℂ rr - rc
  let s := starRingEnd ℂ rr * qr - rc * qc
  let q0 := s.im / r.im
  let Q0 := -0.5 * r.im
  let QS := 1 / scimathSqrt Q0
  (q0, QS)

/-- The intermediate value `r = conj(rr) - rc` of `mix_parameters`. -/
noncomputable def mix_r (Pibra Piket : ParamSet) : ℂ :=
  starRingEnd ℂ (Pibra.1 / Pibra.2.1) - Piket.1 / Piket.2.1

/-- The intermediate value `s = conj(rr)*qr - rc*qc` of `mix_parameters`. -/
noncomputable def mix_s (Pibra Piket : ParamSet) : ℂ :=
  starRingEnd ℂ (Pibra.1 / Pibra.2.1) * Pibra.2.2.2.2 -
    Piket.1 / Piket.2.1 * Piket.2.2.2.2

/-- The intermediate value `Q0 = -0.5 * imag(r)` of `mix_parameters`. -/
noncomputable def mix_Q0 (Pibra Piket : ParamSet) : ℝ :=
  -0.5 * (mix_r Pibra Piket).im

/-- `InhomogeneousQuadrature.transform_nodes`: mixes the parameters and
maps the canonical nodes through `x ↦ q0 + eps·QS·x`.  Although the
optional `QR` argument is substituted into the local variable `QR` when
given, the node array is read from `self.QR` (the stored rule) in the
source, so `QRopt` does not influence the result; the stored rule is
`selfQR`. -/
noncomputable def transform_nodes (selfQR : QuadratureRule) (Pibra Piket : ParamSet)
    (eps : ℝ) (QRopt : Option QuadratureRule := none) : List ℂ :=
  let _QR := QRopt.getD selfQR
  let mixed := mix_parameters Pibra Piket
  let q0 := mixed.1
  let QS := mixed.2
  (List.range selfQR.nnodes).map
    (fun k => (q0 : ℂ) + (eps : ℂ) * QS * (selfQR.nodes k : ℂ))

/-- The node map the spec and the docstring describe for
`transform_nodes`: the canonical nodes of the *given* rule (the explicitly
passed one when supplied) are transformed.  Stated from the spec's words,
for comparison with `transform_nodes` above. -/
noncomputable def transform_nodes_spec (selfQR : QuadratureRule) (Pibra Piket : ParamSet)
    (eps : ℝ) (QRopt : Option QuadratureRule := none) : List ℂ :=
  let QR := QRopt.getD selfQR
  let mixed := mix_parameters Pibra Piket
  let q0 := mixed.1
  let QS := mixed.2
  (List.range QR.nnodes).map
    (fun k => (q0 : ℂ) + (eps : ℂ) * QS * (QR.nodes k : ℂ))

/-- The default operator of `quadrature` when `operator is None`:
`lambda nodes, component: ones(nodes.shape) if component[0] == component[1]
else zeros(nodes.shape)`. -/
def defaultOpScalar : List ℂ → ℕ × ℕ → ℕ → ℂ :=
  fun _nodes component _k => if component.1 = component.2 then 1 else 0

/-- The default operator of `build_matrix` when `operator is None`:
`lambda foo, nodes, component: ones(nodes.shape) if component[0] ==
component[1] else zeros(nodes.shape)`. -/
def defaultOpMatrix : ℝ → List ℂ → ℕ × ℕ → ℕ → ℂ :=
  fun _foo _nodes component _k => if component.1 = component.2 then 1 else 0

/-- The loop body of `quadrature` for one component pair `(row, col)`:
mix the parameters, transform the nodes, evaluate the operator, form the
phase `exp(i/eps² · (S_ket − conj(S_bra)))` and the node factors
`eps · values · weights · QS`, accumulate
`M += factor[k] · basisr[:,k]ᴴ · basisc[:,k]` over all nodes, and return
`phase · conj(coeffbra[row])ᵀ · M · coeffket[col]`. -/
noncomputable def quadratureEntry (selfQR : QuadratureRule) (pacbra packet : Wavepacket)
    (op : List ℂ → ℕ × ℕ → ℕ → ℂ) (row col : ℕ) : ℂ :=
  let eps := packet.eps
  let Pimix := mix_parameters (pacbra.Pi row) (packet.Pi col)
  let nodes := transform_nodes selfQR (pacbra.Pi row) (packet.Pi col) eps
  let values := op nodes (row, col)
  let Sbra := (pacbra.Pi row).2.2.1
  let Sket := (packet.Pi col).2.2.1
  let phase := Complex.exp (Complex.I / (eps : ℂ) ^ 2 *
    (Sket - starRingEnd ℂ Sbra))
  let factor : ℕ → ℂ := fun k =>
    (eps : ℂ) * values k * selfQR.weights k * Pimix.2
  let basisr := pacbra.basis nodes row
  let basisc := packet.basis nodes col
  let M : ℕ → ℕ → ℂ := fun i j =>
    ∑ k ∈ Finset.range selfQR.nnodes,
      factor k * starRingEnd ℂ (basisr i k) * basisc j k
  phase * ∑ i ∈ Finset.range pacbra.K, ∑ j ∈ Finset.range packet.K,
    starRingEnd ℂ (pacbra.coeffs row i) * M i j * packet.coeffs col j

/-- `InhomogeneousQuadrature.quadrature` without `summed` and `component`:
the row-major list of the `Nbra·Nket` component-pair scalars.  The scale
`eps` is read from `packet` (the ket) alone, as in the source. -/
noncomputable def quadrature (selfQR : QuadratureRule) (pacbra packet : Wavepacket)
    (operator : Option (List ℂ → ℕ × ℕ → ℕ → ℂ) := none) : List ℂ :=
  let op := operator.getD defaultOpScalar
  (List.range pacbra.N).flatMap (fun row =>
    (List.range packet.N).map (fun col =>
      quadratureEntry selfQR pacbra packet op row col))

/-- `quadrature` with the `component` keyword: `result[component]` of the
row-major result list. -/
noncomputable def quadrature_component (selfQR : QuadratureRule)
    (pacbra packet : Wavepacket)
    (operator : Option (List ℂ → ℕ × ℕ → ℕ → ℂ)) (component : ℕ) : ℂ :=
  (quadrature selfQR pacbra packet operator).getD component 0

/-- `quadrature` with `summed=True`: the sum of the component-pair
scalars. -/
noncomputable def quadrature_summed (selfQR : QuadratureRule) (pacbra packet : Wavepacket)
    (operator : Option (List ℂ → ℕ × ℕ → ℕ → ℂ) := none) : ℂ :=
  (quadrature selfQR pacbra packet operator).sum

/-- The block of `build_matrix` for one component pair `(row, col)`: the
same node, phase and accumulation machinery as `quadratureEntry`, but the
operator receives `Pimix[0]` as its first argument and the block
`phase · M` is returned whole (entry `(i, j)` of the `Kbra×Kket` block). -/
noncomputable def buildMatrixBlock (selfQR : QuadratureRule) (pacbra packet : Wavepacket)
    (op : ℝ → List ℂ → ℕ × ℕ → ℕ → ℂ) (row col : ℕ) (i j : ℕ) : ℂ :=
  let eps := packet.eps
  let Pimix := mix_parameters (pacbra.Pi row) (packet.Pi col)
  let nodes := transform_nodes selfQR (pacbra.Pi row) (packet.Pi col) eps
  let values := op Pimix.1 nodes (row, col)
  let Sbra := (pacbra.Pi row).2.2.1
  let Sket := (packet.Pi col).2.2.1
  let phase := Complex.exp (Complex.I / (eps : ℂ) ^ 2 *
    (Sket - starRingEnd ℂ Sbra))
  let factor : ℕ → ℂ := fun k =>
    (eps : ℂ) * values k * selfQR.weights k * Pimix.2
  let basisr := pacbra.basis nodes row
  let basisc := packet.basis nodes col
  let M : ℕ → ℕ → ℂ := fun i j =>
    ∑ k ∈ Finset.range selfQR.nnodes,
      factor k * starRingEnd ℂ (basisr i k) * basisc j k
  phase * M i j

/-- `InhomogeneousQuadrature.build_matrix`: the `(Nbra·Kbra)×(Nket·Kket)`
result matrix; position `(row·Kbra + i, col·Kket + j)` holds entry
`(i, j)` of the `(row, col)` block.  Represented as a function of the two
global indices `a`, `b`, decomposed by `a = row·Kbra + i`,
`b = col·Kket + j`. -/
noncomputable def build_matrix (selfQR : QuadratureRule) (pacbra packet : Wavepacket)
    (operator : Option (ℝ → List ℂ → ℕ × ℕ → ℕ → ℂ) := none)
    (a b : ℕ) : ℂ :=
  let op := operator.getD defaultOpMatrix
  buildMatrixBlock selfQR pacbra packet op
    (a / pacbra.K) (b / packet.K) (a % pacbra.K) (b % packet.K)

end InhomogeneousQuadrature

/-! ## SimulationLoopMultiHagedorn -/

/-- The slice of the simulation parameters the embedded loop consults:
the step count, the per-component initial parameter sets, and the
per-component initial coefficient data `(index, value)` lists. -/
structure SimParameters where
  nsteps : ℕ
  parameters : List ParamSet
  coefficients : List (List (ℕ × ℂ))

namespace SimulationLoopMultiHagedorn

/-- The storage side effect of `SimulationLoopMultiHagedorn.__init__`:
the constructor builds an `IOManager` and immediately calls
`create_file`, so after construction the store exists (`some`), with the
simulation parameters saved and the first data block created. -/
def loop_init (_parameters : SimParameters) : Option DataFile :=
  some IOManager.create_file

/-- The storage writes of the success path of `prepare_simulation`:
`add_grid`, `add_wavepacket_inhomog` (dataset allocation), then
`save_grid`, `save_coefficients_inhomog` and `save_parameters_inhomog`
for slot 0.  The plugin bodies are outside the embedded core; only the
dataset names they create are recorded. -/
def prepare_writes (f : DataFile) : DataFile :=
  { f with datasets := f.datasets ++ ["grid", "wavepacket_inhomog"] }

/-- `SimulationLoopMultiHagedorn.prepare_simulation`: obtain the component
count `N` from the external potential, raise
`ValueError("Too few initial states given. Parameters are missing.")`
when fewer parameter sets than components are supplied, raise
`ValueError("Too few initial states given. Coefficients are missing.")`
when fewer coefficient sets than components are supplied, and otherwise
proceed to build the packet and propagator and perform the storage
writes. -/
def prepare_simulation (N : ℕ) (p : SimParameters) (f : DataFile) :
    Except String DataFile :=
  if p.parameters.length < N then
    Except.error "Too few initial states given. Parameters are missing."
  else if p.coefficients.length < N then
    Except.error "Too few initial states given. Coefficients are missing."
  else
    Except.ok (prepare_writes f)

end SimulationLoopMultiHagedorn

/-! ## Helper lemmas -/

/-- `mix_parameters` written through its intermediate values. -/
lemma InhomogeneousQuadrature.mix_parameters_eq (Pibra Piket : ParamSet) :
    InhomogeneousQuadrature.mix_parameters Pibra Piket =
      ((InhomogeneousQuadrature.mix_s Pibra Piket).im /
          (InhomogeneousQuadrature.mix_r Pibra Piket).im,
        1 / scimathSqrt (InhomogeneousQuadrature.mix_Q0 Pibra Piket)) := rfl

lemma filter_range_eq_nil {n : ℕ} {p : ℕ → Bool}
    (h : ∀ j, j < n → p j = false) : (List.range n).filter p = [] := by
  rw [List.filter_eq_nil_iff]
  intro a ha
  rw [List.mem_range] at ha
  simp [h a ha]

lemma filter_range_eq_singleton {n i : ℕ} {p : ℕ → Bool}
    (hi : i < n) (hpi : p i = true)
    (h : ∀ j, j < n → j ≠ i → p j = false) :
    (List.range n).filter p = [i] := by
  induction n with
  | zero => omega
  | succ m ih =>
    rw [List.range_succ, List.filter_append]
    by_cases hlt : i < m
    · rw [ih hlt (fun j hj hne => h j (by omega) hne)]
      have hm : p m = false := h m (by omega) (by omega)
      simp [hm]
    · have him : i = m := by omega
      subst him
      rw [filter_range_eq_nil (fun j hj => h j (by omega) (by omega))]
      simp [hpi]

lemma set_getD_self (l : List ℕ) (n : ℕ) (h : n < l.length) :
    l.set n (l.getD n 0) = l := by
  apply List.ext_getElem (by simp)
  intro i h1 h2
  rw [List.getElem_set]
  split
  · next heq => subst heq; rw [List.getD_eq_getElem l 0 h]
  · rfl

/-! ## Claims about the storage layer -/

/-- C7: `find_timestep_index` on a strictly increasing timegrid is an
exact-match lookup: it returns the slot whose entry equals the requested
timestep when one exists, and raises the not-found `ValueError` when no
slot holds that timestep. -/
theorem C7_find_timestep_exact_lookup (timegrid : List ℤ) (timestep : ℤ)
    (hmono : timegrid.Pairwise (· < ·)) :
    (∀ i (hi : i < timegrid.length), timegrid[i] = timestep →
      IOManager.find_timestep_index timegrid timestep = Except.ok [i]) ∧
    (timestep ∉ timegrid →
      IOManager.find_timestep_index timegrid timestep =
        Except.error "No data for given timestep!") := by
  rw [List.pairwise_iff_getElem] at hmono
  constructor
  · intro i hi hvi
    have hfilter : (List.range timegrid.length).filter
        (fun j => timegrid.getD j 0 = timestep) = [i] := by
      apply filter_range_eq_singleton hi
      · simp [List.getElem?_eq_getElem hi, hvi]
      · intro j hj hne
        have hne' : timegrid[j] ≠ timestep := by
          rcases Nat.lt_or_ge j i with hlt | hge
          · have := hmono j i hj hi hlt
            omega
          · have hlt : i < j := by omega
            have := hmono i j hi hj hlt
            omega
        simp [List.getElem?_eq_getElem hj, hne']
    rw [IOManager.find_timestep_index, hfilter]
    rfl
  · intro hnot
    have hfilter : (List.range timegrid.length).filter
        (fun j => timegrid.getD j 0 = timestep) = [] := by
      apply filter_range_eq_nil
      intro j hj
      have hmem : timegrid[j] ∈ timegrid := List.getElem_mem hj
      have : timegrid[j] ≠ timestep := fun heq => hnot (heq ▸ hmem)
      simp [List.getElem?_eq_getElem hj, this]
    rw [IOManager.find_timestep_index, hfilter]
    rfl

/-- C7 witness: on the timegrid `[0, 5, 10, 15]`, looking up `10` yields
slot `2` and looking up `7` raises. -/
theorem C7_find_timestep_exact_lookup_witness :
    IOManager.find_timestep_index [0, 5, 10, 15] 10 = Except.ok [2] ∧
    IOManager.find_timestep_index [0, 5, 10, 15] 7 =
      Except.error "No data for given timestep!" := by
  have hmono : ([0, 5, 10, 15] : List ℤ).Pairwise (· < ·) := by decide
  constructor
  · exact (C7_find_timestep_exact_lookup [0, 5, 10, 15] 10 hmono).1 2
      (by decide) (by decide)
  · exact (C7_find_timestep_exact_lookup [0, 5, 10, 15] 7 hmono).2
      (by decide)

/-- C8: the `must_resize` contract: when the extent along `axis` is at
most `slot`, the dataset is grown to exactly `slot + 1` along that axis
only; when the extent already covers the slot nothing changes; the extent
never shrinks; and the operation is idempotent. -/
theorem C8_must_resize_contract (shape : List ℕ) (slot axis : ℕ)
    (haxis : axis < shape.length) :
    (shape.getD axis 0 ≤ slot →
      IOManager.must_resize shape slot axis = shape.set axis (slot + 1)) ∧
    (slot < shape.getD axis 0 →
      IOManager.must_resize shape slot axis = shape) ∧
    shape.getD axis 0 ≤ (IOManager.must_resize shape slot axis).getD axis 0 ∧
    IOManager.must_resize (IOManager.must_resize shape slot axis) slot axis =
      IOManager.must_resize shape slot axis := by
  have hgrow : ∀ c s : ℕ, c ≤ s → IOManager.must_resize_extent c s = s + 1 := by
    intro c s h
    rw [IOManager.must_resize_extent, if_pos (by omega)]
  have hkeep : ∀ c s : ℕ, s < c → IOManager.must_resize_extent c s = c := by
    intro c s h
    rw [IOManager.must_resize_extent, if_neg (by omega)]
  refine ⟨fun h => ?_, fun h => ?_, ?_, ?_⟩
  · rw [IOManager.must_resize, hgrow _ _ h]
  · rw [IOManager.must_resize, hkeep _ _ h, set_getD_self shape axis haxis]
  · rcases le_or_lt (shape.getD axis 0) slot with h | h
    · have hlen : axis < (shape.set axis (slot + 1)).length := by
        simpa using haxis
      have hget : (shape.set axis (slot + 1)).getD axis 0 = slot + 1 := by
        rw [List.getD_eq_getElem _ 0 hlen, List.getElem_set_self]
      rw [IOManager.must_resize, hgrow _ _ h, hget]
      omega
    · rw [IOManager.must_resize, hkeep _ _ h, set_getD_self shape axis haxis]
  · rcases le_or_lt (shape.getD axis 0) slot with h | h
    · have hlen : axis < (shape.set axis (slot + 1)).length := by
        simpa using haxis
      have hget : (shape.set axis (slot + 1)).getD axis 0 = slot + 1 := by
        rw [List.getD_eq_getElem _ 0 hlen, List.getElem_set_self]
      have h1 : IOManager.must_resize shape slot axis =
          shape.set axis (slot + 1) := by
        rw [IOManager.must_resize, hgrow _ _ h]
      rw [h1, IOManager.must_resize, hget, hkeep _ _ (by omega), List.set_set]
    · have h1 : IOManager.must_resize shape slot axis = shape := by
        rw [IOManager.must_resize, hkeep _ _ h, set_getD_self shape axis haxis]
      rw [h1]
      exact h1

/-- C8 witness: on the shape `[3, 7]`, growing slot `5` along axis `0`
gives extent `6`, a repeat changes nothing, and slot `1` along axis `0`
changes nothing. -/
theorem C8_must_resize_contract_witness :
    IOManager.must_resize [3, 7] 5 0 = [6, 7] ∧
    IOManager.must_resize (IOManager.must_resize [3, 7] 5 0) 5 0 =
      IOManager.must_resize [3, 7] 5 0 ∧
    IOManager.must_resize [3, 7] 1 0 = [3, 7] := by
  refine ⟨?_, (C8_must_resize_contract [3, 7] 5 0 (by decide)).2.2.2, ?_⟩
  · exact ((C8_must_resize_contract [3, 7] 5 0 (by decide)).1 (by decide)).trans
      (by decide)
  · exact (C8_must_resize_contract [3, 7] 1 0 (by decide)).2.1 (by decide)

/-- C9: after `create_file` and after every further `create_block`, the
`number_blocks` attribute equals the number of data blocks present, the
block ids are exactly `0, 1, …, number_blocks - 1` in creation order, and
every `create_block` increments the persisted counter by one. -/
theorem C9_block_count_invariant :
    (∀ k : ℕ,
      (IOManager.create_block^[k] IOManager.create_file).number_blocks =
        (IOManager.create_block^[k] IOManager.create_file).blocks.length ∧
      (IOManager.create_block^[k] IOManager.create_file).blocks =
        List.range
          (IOManager.create_block^[k] IOManager.create_file).number_blocks) ∧
    (∀ f : DataFile,
      (IOManager.create_block f).number_blocks = f.number_blocks + 1) := by
  constructor
  · have key : ∀ k : ℕ,
        (IOManager.create_block^[k] IOManager.create_file).blocks =
          List.range
            (IOManager.create_block^[k] IOManager.create_file).number_blocks := by
      intro k
      induction k with
      | zero =>
        simp [IOManager.create_file, IOManager.create_block,
          IOManager.save_simulation_parameters, List.range_succ]
      | succ m ih =>
        rw [Function.iterate_succ_apply']
        simp [IOManager.create_block, ih, List.range_succ]
    intro k
    refine ⟨?_, key k⟩
    rw [key k, List.length_range]
  · intro f
    rfl

lemma length_flatMap_const {α : Type} (f : ℕ → ℕ → α) (M N : ℕ) :
    ((List.range M).flatMap (fun r => (List.range N).map (f r))).length =
      M * N := by
  induction M with
  | zero => simp
  | succ m ih =>
    rw [List.range_succ, List.flatMap_append, List.length_append, ih]
    simp [Nat.succ_mul]

lemma getD_flatMap_range {α : Type} (f : ℕ → ℕ → α) (d : α)
    (M N row col : ℕ) (hrow : row < M) (hcol : col < N) :
    ((List.range M).flatMap (fun r => (List.range N).map (f r))).getD
      (row * N + col) d = f row col := by
  induction M with
  | zero => omega
  | succ m ih =>
    rw [List.range_succ, List.flatMap_append]
    by_cases hlt : row < m
    · have hlen : row * N + col <
          ((List.range m).flatMap (fun r => (List.range N).map (f r))).length := by
        rw [length_flatMap_const]
        calc row * N + col < row * N + N := by omega
          _ = (row + 1) * N := by ring
          _ ≤ m * N := Nat.mul_le_mul_right N (by omega)
      rw [List.getD_append _ _ _ _ hlen]
      exact ih hlt
    · have hrm : row = m := by omega
      subst hrm
      have hlen : ((List.range row).flatMap
          (fun r => (List.range N).map (f r))).length ≤ row * N + col := by
        rw [length_flatMap_const]
        exact Nat.le_add_right _ _
      rw [List.getD_append_right _ _ _ _ hlen, length_flatMap_const,
        Nat.add_sub_cancel_left]
      have hN : col < (((List.range N).map (f row)) ++ ([] : List α)).length := by
        simpa using hcol
      simp only [List.flatMap_cons, List.flatMap_nil]
      rw [List.getD_eq_getElem _ _ hN]
      simp

/-! ## Claims about the simulation loop -/

/-- C1 counterexample: a run with a two-component potential but a single
initial parameter set.  `prepare_simulation` raises the configuration
error, yet the output store has already been created and written by the
loop constructor: the file exists, the simulation parameters are saved
and the first data block is present. -/
theorem C1_counterexample :
    SimulationLoopMultiHagedorn.prepare_simulation 2
        ⟨3, [(0, 0, 0, 0, 0)], [[(0, 1)], [(0, 1)]]⟩ IOManager.create_file =
      Except.error "Too few initial states given. Parameters are missing." ∧
    SimulationLoopMultiHagedorn.loop_init
        ⟨3, [(0, 0, 0, 0, 0)], [[(0, 1)], [(0, 1)]]⟩ =
      some IOManager.create_file ∧
    IOManager.create_file.params_saved = true ∧
    IOManager.create_file.number_blocks = 1 := by
  refine ⟨?_, rfl, rfl, rfl⟩
  rw [SimulationLoopMultiHagedorn.prepare_simulation, if_pos (by norm_num)]

/-- C1 amended: whenever `prepare_simulation` raises a configuration
error, the cause is a shortfall of initial parameter or coefficient sets,
and at that point no time-series dataset of the run has been allocated
and no slot written — but the output store itself has already been
created and written by the loop constructor (simulation parameters saved,
data block 0 present). -/
theorem C1_prepare_error_storage_state (N : ℕ) (p : SimParameters)
    (f : DataFile) (msg : String)
    (h : SimulationLoopMultiHagedorn.prepare_simulation N p f =
      Except.error msg) :
    (p.parameters.length < N ∨ p.coefficients.length < N) ∧
    SimulationLoopMultiHagedorn.loop_init p = some IOManager.create_file ∧
    IOManager.create_file.params_saved = true ∧
    IOManager.create_file.blocks = [0] ∧
    IOManager.create_file.datasets = [] := by
  refine ⟨?_, rfl, rfl, rfl, rfl⟩
  by_contra hcon
  push_neg at hcon
  rw [SimulationLoopMultiHagedorn.prepare_simulation,
    if_neg (by omega), if_neg (by omega)] at h
  exact Except.noConfusion h

/-- C1 witness for the amended theorem, at the concrete failing
configuration of `C1_counterexample`. -/
theorem C1_prepare_error_storage_state_witness :
    (([(0, 0, 0, 0, 0)] : List ParamSet).length < 2 ∨
      ([[(0, 1)], [(0, 1)]] : List (List (ℕ × ℂ))).length < 2) ∧
    SimulationLoopMultiHagedorn.loop_init
        ⟨3, [(0, 0, 0, 0, 0)], [[(0, 1)], [(0, 1)]]⟩ =
      some IOManager.create_file ∧
    IOManager.create_file.params_saved = true ∧
    IOManager.create_file.blocks = [0] ∧
    IOManager.create_file.datasets = [] := by
  have h := C1_prepare_error_storage_state 2
    ⟨3, [(0, 0, 0, 0, 0)], [[(0, 1)], [(0, 1)]]⟩ IOManager.create_file
    "Too few initial states given. Parameters are missing."
    (by rw [SimulationLoopMultiHagedorn.prepare_simulation,
      if_pos (by norm_num)])
  exact h

/-! ## Claims about parameter mixing -/

/-- C2 counterexample: the parameter pair `(-i, 1, 0, 0, 1)` against
itself is degenerate in the sense of the claim (`Q0 = -1 ≤ 0`), yet
`mix_parameters` returns the value `(1, -i)` — the scimath square root
silently coerces the width to a complex number; no error is raised. -/
theorem C2_counterexample :
    InhomogeneousQuadrature.mix_Q0 (-Complex.I, 1, 0, 0, 1)
        (-Complex.I, 1, 0, 0, 1) ≤ 0 ∧
    InhomogeneousQuadrature.mix_parameters (-Complex.I, 1, 0, 0, 1)
        (-Complex.I, 1, 0, 0, 1) = (1, -Complex.I) := by
  have hr : InhomogeneousQuadrature.mix_r (-Complex.I, 1, 0, 0, 1)
      (-Complex.I, 1, 0, 0, 1) = 2 * Complex.I := by
    simp [InhomogeneousQuadrature.mix_r]
    ring
  have hs : InhomogeneousQuadrature.mix_s (-Complex.I, 1, 0, 0, 1)
      (-Complex.I, 1, 0, 0, 1) = 2 * Complex.I := by
    simp [InhomogeneousQuadrature.mix_s]
    ring
  have hQ0 : InhomogeneousQuadrature.mix_Q0 (-Complex.I, 1, 0, 0, 1)
      (-Complex.I, 1, 0, 0, 1) = -1 := by
    rw [InhomogeneousQuadrature.mix_Q0, hr]
    norm_num [Complex.mul_im]
  refine ⟨by rw [hQ0]; norm_num, ?_⟩
  rw [InhomogeneousQuadrature.mix_parameters_eq, hr, hs, hQ0]
  rw [scimathSqrt, if_neg (by norm_num)]
  norm_num

/-- C2 amended: `mix_parameters` performs no domain check and never
raises.  For every bra/ket pair with `Q0 = -0.5·imag(r) < 0` it silently
returns the value `(imag(s)/imag(r), 1/(i·sqrt(-Q0)))`: the scimath
square root coerces the width scale to a purely imaginary complex number
instead of signalling a domain error (and on `imag(r) = 0` the divisions
produce IEEE non-finite junk, again without an error). -/
theorem C2_mix_degenerate_returns_value (Pibra Piket : ParamSet)
    (h : InhomogeneousQuadrature.mix_Q0 Pibra Piket < 0) :
    InhomogeneousQuadrature.mix_parameters Pibra Piket =
      ((InhomogeneousQuadrature.mix_s Pibra Piket).im /
          (InhomogeneousQuadrature.mix_r Pibra Piket).im,
        1 / (Complex.I *
          (Real.sqrt (-InhomogeneousQuadrature.mix_Q0 Pibra Piket) : ℂ))) := by
  rw [InhomogeneousQuadrature.mix_parameters_eq]
  rw [scimathSqrt, if_neg (by linarith)]

/-- C2 witness for the amended theorem: at the degenerate pair
`(-i, 1, 0, 0, 1)` the hypothesis `Q0 < 0` holds and the returned value
is as stated. -/
theorem C2_mix_degenerate_returns_value_witness :
    InhomogeneousQuadrature.mix_Q0 (-Complex.I, 1, 0, 0, 1)
        (-Complex.I, 1, 0, 0, 1) < 0 ∧
    InhomogeneousQuadrature.mix_parameters (-Complex.I, 1, 0, 0, 1)
        (-Complex.I, 1, 0, 0, 1) =
      ((InhomogeneousQuadrature.mix_s (-Complex.I, 1, 0, 0, 1)
            (-Complex.I, 1, 0, 0, 1)).im /
          (InhomogeneousQuadrature.mix_r (-Complex.I, 1, 0, 0, 1)
            (-Complex.I, 1, 0, 0, 1)).im,
        1 / (Complex.I * (Real.sqrt
          (-InhomogeneousQuadrature.mix_Q0 (-Complex.I, 1, 0, 0, 1)
            (-Complex.I, 1, 0, 0, 1)) : ℂ))) := by
  have hQ0 : InhomogeneousQuadrature.mix_Q0 (-Complex.I, 1, 0, 0, 1)
      (-Complex.I, 1, 0, 0, 1) = -1 := by
    have hr : InhomogeneousQuadrature.mix_r (-Complex.I, 1, 0, 0, 1)
        (-Complex.I, 1, 0, 0, 1) = 2 * Complex.I := by
      simp [InhomogeneousQuadrature.mix_r]
      ring
    rw [InhomogeneousQuadrature.mix_Q0, hr]
    norm_num [Complex.mul_im]
  have h : InhomogeneousQuadrature.mix_Q0 (-Complex.I, 1, 0, 0, 1)
      (-Complex.I, 1, 0, 0, 1) < 0 := by rw [hQ0]; norm_num
  exact ⟨h, C2_mix_degenerate_returns_value _ _ h⟩

/-- C6: mixing a non-degenerate parameter tuple with itself yields a
real, strictly positive width scale `QS` (and the center `q0` is a real
scalar by construction: the first component of the result has type `ℝ`,
mirroring numpy's real-valued `imag`). -/
theorem C6_mix_self_symmetry (A : ParamSet)
    (_hQ : A.2.1 ≠ 0) (h : 0 < (A.1 / A.2.1).im) :
    ((InhomogeneousQuadrature.mix_parameters A A).2).im = 0 ∧
    0 < ((InhomogeneousQuadrature.mix_parameters A A).2).re ∧
    (((InhomogeneousQuadrature.mix_parameters A A).1 : ℂ)).im = 0 := by
  have hr : (InhomogeneousQuadrature.mix_r A A).im = -2 * (A.1 / A.2.1).im := by
    rw [InhomogeneousQuadrature.mix_r, Complex.sub_im, Complex.conj_im]
    ring
  have hQ0 : InhomogeneousQuadrature.mix_Q0 A A = (A.1 / A.2.1).im := by
    rw [InhomogeneousQuadrature.mix_Q0, hr]
    ring
  have hpos : 0 < InhomogeneousQuadrature.mix_Q0 A A := by rw [hQ0]; exact h
  have hsq : scimathSqrt (InhomogeneousQuadrature.mix_Q0 A A) =
      ((Real.sqrt (InhomogeneousQuadrature.mix_Q0 A A) : ℝ) : ℂ) := by
    rw [scimathSqrt, if_pos (le_of_lt hpos)]
  have hsqrt_pos : 0 < Real.sqrt (InhomogeneousQuadrature.mix_Q0 A A) :=
    Real.sqrt_pos.mpr hpos
  rw [InhomogeneousQuadrature.mix_parameters_eq]
  refine ⟨?_, ?_, rfl⟩
  · simp [hsq]
  · rw [hsq]
    rw [show (1 : ℂ) / ((Real.sqrt (InhomogeneousQuadrature.mix_Q0 A A) : ℝ) : ℂ) =
      (((1 / Real.sqrt (InhomogeneousQuadrature.mix_Q0 A A) : ℝ)) : ℂ) by
        push_cast; ring]
    rw [Complex.ofReal_re]
    positivity

/-- C6 witness: the tuple `(i, 1, 0, 0, 0)` is non-degenerate
(`imag(P/Q) = 1 > 0`, `Q = 1 ≠ 0`) and satisfies the conclusion. -/
theorem C6_mix_self_symmetry_witness :
    ((1 : ℂ) ≠ 0 ∧ 0 < ((Complex.I : ℂ) / 1).im) ∧
    ((InhomogeneousQuadrature.mix_parameters (Complex.I, 1, 0, 0, 0)
        (Complex.I, 1, 0, 0, 0)).2).im = 0 ∧
    0 < ((InhomogeneousQuadrature.mix_parameters (Complex.I, 1, 0, 0, 0)
        (Complex.I, 1, 0, 0, 0)).2).re := by
  have h1 : (1 : ℂ) ≠ 0 := one_ne_zero
  have h2 : 0 < ((Complex.I : ℂ) / 1).im := by simp
  have h := C6_mix_self_symmetry (Complex.I, 1, 0, 0, 0) h1 h2
  exact ⟨⟨h1, h2⟩, h.1, h.2.1⟩

/-! ## Claims about the quadrature engine -/

/-- C3: evaluation of `transform_nodes` at a failing input.  The stored
rule has the single node `0`, the explicitly passed rule has the single
node `1`, the parameters are `(i, 1, 0, 0, 0)` for bra and ket (so
`q0 = 0`, `QS = 1`), and `eps = 1`.  The source returns `[0]` — it reads
the nodes from the stored rule, ignoring the passed one — while the
docstring and the spec describe the passed rule's nodes being mapped,
which gives `[1]`. -/
theorem C3_transform_nodes_ignores_passed_rule :
    InhomogeneousQuadrature.transform_nodes ⟨1, fun _ => 0, fun _ => 1⟩
        (Complex.I, 1, 0, 0, 0) (Complex.I, 1, 0, 0, 0) 1
        (some ⟨1, fun _ => 1, fun _ => 1⟩) = [(0 : ℂ)] ∧
    InhomogeneousQuadrature.transform_nodes_spec ⟨1, fun _ => 0, fun _ => 1⟩
        (Complex.I, 1, 0, 0, 0) (Complex.I, 1, 0, 0, 0) 1
        (some ⟨1, fun _ => 1, fun _ => 1⟩) = [(1 : ℂ)] ∧
    ((0 : ℂ) ≠ (1 : ℂ)) := by
  have hmix : InhomogeneousQuadrature.mix_parameters (Complex.I, 1, 0, 0, 0)
      (Complex.I, 1, 0, 0, 0) = (0, 1) := by
    have hr : InhomogeneousQuadrature.mix_r (Complex.I, 1, 0, 0, 0)
        (Complex.I, 1, 0, 0, 0) = -(2 * Complex.I) := by
      simp [InhomogeneousQuadrature.mix_r]
      ring
    have hs : InhomogeneousQuadrature.mix_s (Complex.I, 1, 0, 0, 0)
        (Complex.I, 1, 0, 0, 0) = 0 := by
      simp [InhomogeneousQuadrature.mix_s]
    have hQ0 : InhomogeneousQuadrature.mix_Q0 (Complex.I, 1, 0, 0, 0)
        (Complex.I, 1, 0, 0, 0) = 1 := by
      rw [InhomogeneousQuadrature.mix_Q0, hr]
      norm_num [Complex.mul_im]
    rw [InhomogeneousQuadrature.mix_parameters_eq, hr, hs, hQ0]
    rw [scimathSqrt, if_pos (by norm_num)]
    norm_num
  refine ⟨?_, ?_, by norm_num⟩
  · simp only [InhomogeneousQuadrature.transform_nodes, hmix]
    norm_num [List.range_succ]
  · simp only [InhomogeneousQuadrature.transform_nodes_spec, hmix]
    norm_num [List.range_succ]

/-- C5: the default (identity) operator is a Kronecker delta in the
component indices, independent of the node values, in both
`quadrature` and `build_matrix`; consequently every off-diagonal
component block of the `build_matrix` result is exactly zero, whatever
the nodes, weights, basis values and coefficients are. -/
theorem C5_default_operator_is_kronecker :
    (∀ (nodes : List ℂ) (row col k : ℕ),
      InhomogeneousQuadrature.defaultOpScalar nodes (row, col) k =
        if row = col then 1 else 0) ∧
    (∀ (q0 : ℝ) (nodes : List ℂ) (row col k : ℕ),
      InhomogeneousQuadrature.defaultOpMatrix q0 nodes (row, col) k =
        if row = col then 1 else 0) ∧
    (∀ (QR : QuadratureRule) (pacbra packet : Wavepacket)
      (row col i j : ℕ), row < pacbra.N → col < packet.N →
      i < pacbra.K → j < packet.K → row ≠ col →
      InhomogeneousQuadrature.build_matrix QR pacbra packet none
        (row * pacbra.K + i) (col * packet.K + j) = 0) := by
  refine ⟨fun _ _ _ _ => rfl, fun _ _ _ _ _ => rfl, ?_⟩
  intro QR pacbra packet row col i j _hrow _hcol hi hj hne
  have hKb : 0 < pacbra.K := by omega
  have hKk : 0 < packet.K := by omega
  have h1 : (row * pacbra.K + i) / pacbra.K = row := by
    rw [add_comm, mul_comm, Nat.add_mul_div_left _ _ hKb,
      Nat.div_eq_of_lt hi, Nat.zero_add]
  have h2 : (row * pacbra.K + i) % pacbra.K = i := by
    rw [add_comm, mul_comm, Nat.add_mul_mod_self_left]
    exact Nat.mod_eq_of_lt hi
  have h3 : (col * packet.K + j) / packet.K = col := by
    rw [add_comm, mul_comm, Nat.add_mul_div_left _ _ hKk,
      Nat.div_eq_of_lt hj, Nat.zero_add]
  have h4 : (col * packet.K + j) % packet.K = j := by
    rw [add_comm, mul_comm, Nat.add_mul_mod_self_left]
    exact Nat.mod_eq_of_lt hj
  simp only [InhomogeneousQuadrature.build_matrix, Option.getD_none,
    h1, h2, h3, h4]
  simp [InhomogeneousQuadrature.buildMatrixBlock,
    InhomogeneousQuadrature.defaultOpMatrix, hne]

/-- C5 witness: a two-component pair of packets with basis size 1 and a
one-node rule; the off-diagonal block entry `(row, col) = (1, 0)` of the
default-operator matrix quadrature is zero. -/
theorem C5_default_operator_is_kronecker_witness :
    ((1 : ℕ) < 2 ∧ (0 : ℕ) < 2 ∧ (0 : ℕ) < 1 ∧ (1 : ℕ) ≠ 0) ∧
    InhomogeneousQuadrature.build_matrix ⟨1, fun _ => 0, fun _ => 1⟩
      ⟨2, 1, 1, fun _ => (Complex.I, 1, 0, 0, 0), fun _ _ => 1,
        fun _ _ _ _ => 1⟩
      ⟨2, 1, 1, fun _ => (Complex.I, 1, 0, 0, 0), fun _ _ => 1,
        fun _ _ _ _ => 1⟩
      none (1 * 1 + 0) (0 * 1 + 0) = 0 := by
  refine ⟨⟨by norm_num, by norm_num, by norm_num, by norm_num⟩, ?_⟩
  exact C5_default_operator_is_kronecker.2.2
    ⟨1, fun _ => 0, fun _ => 1⟩
    ⟨2, 1, 1, fun _ => (Complex.I, 1, 0, 0, 0), fun _ _ => 1,
      fun _ _ _ _ => 1⟩
    ⟨2, 1, 1, fun _ => (Complex.I, 1, 0, 0, 0), fun _ _ => 1,
      fun _ _ _ _ => 1⟩
    1 0 0 0 (by norm_num) (by norm_num) (by norm_num) (by norm_num)
    (by norm_num)

/-- C10: both `quadrature` and `build_matrix` read the scale `eps` from
the ket packet only; replacing the bra packet's `eps` by any other value
leaves every result unchanged, so for bra/ket pairs with differing `eps`
the result depends only on the ket's value. -/
theorem C10_eps_read_from_ket_only (QR : QuadratureRule)
    (pacbra packet : Wavepacket) (ebra : ℝ)
    (opS : Option (List ℂ → ℕ × ℕ → ℕ → ℂ))
    (opM : Option (ℝ → List ℂ → ℕ × ℕ → ℕ → ℂ)) :
    InhomogeneousQuadrature.quadrature QR { pacbra with eps := ebra }
        packet opS =
      InhomogeneousQuadrature.quadrature QR pacbra packet opS ∧
    ∀ a b,
      InhomogeneousQuadrature.build_matrix QR { pacbra with eps := ebra }
          packet opM a b =
        InhomogeneousQuadrature.build_matrix QR pacbra packet opM a b := by
  exact ⟨rfl, fun _ _ => rfl⟩

/-- C4: scalar/matrix consistency.  For every bra/ket packet pair and
component pair `(row, col)` inside the component ranges, and operators
whose values agree for that pair (in particular the shared identity
default), the scalar of `quadrature` restricted to `(row, col)` equals
`conj(c_row)ᵗ · block(row, col) · c_col` of the `build_matrix` result —
exactly, hence in particular to floating-point tolerance. -/
theorem C4_scalar_matrix_consistency (QR : QuadratureRule)
    (pacbra packet : Wavepacket)
    (opS : Option (List ℂ → ℕ × ℕ → ℕ → ℂ))
    (opM : Option (ℝ → List ℂ → ℕ × ℕ → ℕ → ℂ))
    (row col : ℕ) (hrow : row < pacbra.N) (hcol : col < packet.N)
    (hop : ∀ k,
      (opS.getD InhomogeneousQuadrature.defaultOpScalar)
        (InhomogeneousQuadrature.transform_nodes QR (pacbra.Pi row)
          (packet.Pi col) packet.eps) (row, col) k =
      (opM.getD InhomogeneousQuadrature.defaultOpMatrix)
        (InhomogeneousQuadrature.mix_parameters (pacbra.Pi row)
          (packet.Pi col)).1
        (InhomogeneousQuadrature.transform_nodes QR (pacbra.Pi row)
          (packet.Pi col) packet.eps) (row, col) k) :
    InhomogeneousQuadrature.quadrature_component QR pacbra packet opS
        (row * packet.N + col) =
      ∑ i ∈ Finset.range pacbra.K, ∑ j ∈ Finset.range packet.K,
        starRingEnd ℂ (pacbra.coeffs row i) *
          InhomogeneousQuadrature.build_matrix QR pacbra packet opM
            (row * pacbra.K + i) (col * packet.K + j) *
          packet.coeffs col j := by
  simp only [InhomogeneousQuadrature.quadrature_component,
    InhomogeneousQuadrature.quadrature]
  rw [getD_flatMap_range _ _ _ _ row col hrow hcol]
  simp only [InhomogeneousQuadrature.quadratureEntry, Finset.mul_sum]
  refine Finset.sum_congr rfl fun i hi => Finset.sum_congr rfl fun j hj => ?_
  rw [Finset.mem_range] at hi hj
  have hKb : 0 < pacbra.K := by omega
  have hKk : 0 < packet.K := by omega
  have h1 : (row * pacbra.K + i) / pacbra.K = row := by
    rw [add_comm, mul_comm, Nat.add_mul_div_left _ _ hKb,
      Nat.div_eq_of_lt hi, Nat.zero_add]
  have h2 : (row * pacbra.K + i) % pacbra.K = i := by
    rw [add_comm, mul_comm, Nat.add_mul_mod_self_left]
    exact Nat.mod_eq_of_lt hi
  have h3 : (col * packet.K + j) / packet.K = col := by
    rw [add_comm, mul_comm, Nat.add_mul_div_left _ _ hKk,
      Nat.div_eq_of_lt hj, Nat.zero_add]
  have h4 : (col * packet.K + j) % packet.K = j := by
    rw [add_comm, mul_comm, Nat.add_mul_mod_self_left]
    exact Nat.mod_eq_of_lt hj
  simp only [InhomogeneousQuadrature.build_matrix, h1, h2, h3, h4]
  simp only [InhomogeneousQuadrature.buildMatrixBlock]
  simp only [hop]
  simp only [Finset.mul_sum, Finset.sum_mul]
  refine Finset.sum_congr rfl fun x _ => ?_
  ring

/-- C4 witness: single-component packets with basis size 1, a one-node
rule and the default operators; the operator-agreement hypothesis holds
definitionally and the consistency equation follows. -/
theorem C4_scalar_matrix_consistency_witness :
    ((0 : ℕ) < 1 ∧ (0 : ℕ) < 1) ∧
    InhomogeneousQuadrature.quadrature_component ⟨1, fun _ => 0, fun _ => 1⟩
        ⟨1, 1, 1, fun _ => (Complex.I, 1, 0, 0, 0), fun _ _ => 1,
          fun _ _ _ _ => 1⟩
        ⟨1, 1, 1, fun _ => (Complex.I, 1, 0, 0, 0), fun _ _ => 1,
          fun _ _ _ _ => 1⟩
        none (0 * 1 + 0) =
      ∑ i ∈ Finset.range 1, ∑ j ∈ Finset.range 1,
        starRingEnd ℂ 1 *
          InhomogeneousQuadrature.build_matrix ⟨1, fun _ => 0, fun _ => 1⟩
            ⟨1, 1, 1, fun _ => (Complex.I, 1, 0, 0, 0), fun _ _ => 1,
              fun _ _ _ _ => 1⟩
            ⟨1, 1, 1, fun _ => (Complex.I, 1, 0, 0, 0), fun _ _ => 1,
              fun _ _ _ _ => 1⟩
            none (0 * 1 + i) (0 * 1 + j) * 1 := by
  refine ⟨⟨by norm_num, by norm_num⟩, ?_⟩
  exact C4_scalar_matrix_consistency ⟨1, fun _ => 0, fun _ => 1⟩
    ⟨1, 1, 1, fun _ => (Complex.I, 1, 0, 0, 0), fun _ _ => 1,
      fun _ _ _ _ => 1⟩
    ⟨1, 1, 1, fun _ => (Complex.I, 1, 0, 0, 0), fun _ _ => 1,
      fun _ _ _ _ => 1⟩
    none none 0 0 (by norm_num) (by norm_num) (fun _ => rfl)

end WaveBlocks
